import Mathlib

/-!
Shallow embedding of the core of `file-commander.py` (the `FileOperations`
class, the `execute_operation` dispatcher and the multi-step plan loop of
`command`), together with proofs about the resolver, the handlers, the fuzzy
matcher, the bounded search and the batch runner.

Modelling conventions:
* the POSIX branch of the program is modelled (`os.name == 'posix'`):
  `os.path.isabs` is "starts with '/'", `os.path.join`/`normpath`/`basename`
  follow `posixpath`;
* the filesystem is a pair of path lists (regular files, directories);
  `os.path.exists`/`isfile`/`isdir` are membership tests;
* `os.walk` and `os.listdir` results are environment oracles carried in the
  `World` state, since their enumeration order is OS-provided;
* strings are ASCII-modelled: `str.lower`, `str.isalpha`, `str.strip` and
  `str.split` act on ASCII letters and ASCII whitespace.
-/

namespace FileCommander

/-- Python whitespace class `\s` / `str.strip()` characters (ASCII part). -/
def isSpacePy (c : Char) : Bool :=
  c = ' ' ∨ c = '\t' ∨ c = '\n' ∨ c = '\r' ∨ c = '\x0b' ∨ c = '\x0c'

/-- `str.strip()` on a character list: drop whitespace from both ends. -/
def pyStripList (l : List Char) : List Char :=
  ((l.dropWhile isSpacePy).reverse.dropWhile isSpacePy).reverse

/-- `path.strip()`. -/
def pyStrip (s : String) : String :=
  String.mk (pyStripList s.toList)

/-- `s.lower()` as a character list (ASCII model). -/
def lowerList (s : String) : List Char :=
  s.toList.map Char.toLower

/-- `s.lower()`. -/
def lowerStr (s : String) : String :=
  String.mk (lowerList s)

/-- `posixpath.isabs`: the path starts with a slash. -/
def isAbsPosix (s : String) : Bool :=
  s.toList.head? = some '/'

/-- `str.split('/')`, keeping empty components (as Python does). -/
def splitSlash : List Char → List (List Char)
  | [] => [[]]
  | c :: rest =>
    let r := splitSlash rest
    if c = '/' then [] :: r
    else
      match r with
      | [] => [[c]]
      | h :: t => (c :: h) :: t

/-- The number of leading slashes `posixpath.normpath` preserves
(`//` is kept, `///` and more collapse to `/`). -/
def initSlashes (l : List Char) : Nat :=
  if l.take 2 = ['/', '/'] ∧ l.take 3 ≠ ['/', '/', '/'] then 2
  else if l.take 1 = ['/'] then 1
  else 0

/-- One step of `posixpath.normpath`'s component loop. -/
def normStep (slashes : Nat) (acc : List (List Char)) (comp : List Char) :
    List (List Char) :=
  if comp = [] ∨ comp = ['.'] then acc
  else if comp ≠ ['.', '.'] ∨ (slashes = 0 ∧ acc = []) ∨
      (acc.getLast? = some ['.', '.']) then acc ++ [comp]
  else if acc ≠ [] then acc.dropLast
  else acc

/-- `posixpath.normpath` on a character list. -/
def normListPosix (l : List Char) : List Char :=
  if l = [] then ['.']
  else
    let slashes := initSlashes l
    let newComps := (splitSlash l).foldl (normStep slashes) []
    let res := List.replicate slashes '/' ++ List.intercalate ['/'] newComps
    if res = [] then ['.'] else res

/-- `os.path.normpath` (POSIX branch). -/
def normpathPosix (s : String) : String :=
  String.mk (normListPosix s.toList)

/-- Whether a path string ends with a slash. -/
def endsWithSlash (s : String) : Bool :=
  s.toList.getLast? = some '/'

/-- `posixpath.join` restricted to two arguments, as used by the program. -/
def pjoin (a b : String) : String :=
  if isAbsPosix b then b
  else if a = "" ∨ endsWithSlash a then a ++ b
  else a ++ "/" ++ b

/-- `posixpath.basename`: everything after the last slash. -/
def pbasename (p : String) : String :=
  String.mk ((p.toList.reverse.takeWhile (fun c => c ≠ '/')).reverse)

/-- The filesystem: which absolute paths are regular files and which are
directories.  `os.path.isfile` / `os.path.isdir` / `os.path.exists` are
membership tests on it. -/
structure FS where
  files : List String
  dirs : List String

/-- `os.path.isfile`. -/
def FS.isFile (fs : FS) (p : String) : Prop := p ∈ fs.files

/-- `os.path.isdir`. -/
def FS.isDir (fs : FS) (p : String) : Prop := p ∈ fs.dirs

/-- `os.path.exists`. -/
def FS.pathExists (fs : FS) (p : String) : Prop := p ∈ fs.files ∨ p ∈ fs.dirs

instance (fs : FS) (p : String) : Decidable (fs.isFile p) :=
  inferInstanceAs (Decidable (p ∈ fs.files))

instance (fs : FS) (p : String) : Decidable (fs.isDir p) :=
  inferInstanceAs (Decidable (p ∈ fs.dirs))

instance (fs : FS) (p : String) : Decidable (fs.pathExists p) :=
  inferInstanceAs (Decidable (p ∈ fs.files ∨ p ∈ fs.dirs))

/-- The `COMMON_LOCATIONS` dict (POSIX branch: no drive-letter entries are
added, `MOVIES_DIR` is `~/Movies`).  `home` is `os.path.expanduser("~")`. -/
def commonLocations (home : String) : List (String × String) :=
  [("home", home),
   ("desktop", pjoin home "Desktop"),
   ("downloads", pjoin home "Downloads"),
   ("documents", pjoin home "Documents"),
   ("pictures", pjoin home "Pictures"),
   ("music", pjoin home "Music"),
   ("videos", pjoin home "Videos"),
   ("movies", pjoin home "Movies"),
   ("docs", pjoin home "Documents"),
   ("my documents", pjoin home "Documents"),
   ("my desktop", pjoin home "Desktop"),
   ("my downloads", pjoin home "Downloads"),
   ("pics", pjoin home "Pictures"),
   ("photos", pjoin home "Pictures")]

/-- Drop ASCII whitespace from the front (`\s+` greedy consumption). -/
def dropWs (l : List Char) : List Char := l.dropWhile isSpacePy

/-- The optional `(?:drive\s+)?` part of the drive-reference regex: the
literal word `drive` followed by at least one whitespace character. -/
def stripDriveWord (s : List Char) : Option (List Char) :=
  match s with
  | 'd' :: 'r' :: 'i' :: 'v' :: 'e' :: rest =>
    match rest with
    | c :: _ => if isSpacePy c then some (dropWs rest) else none
    | [] => none
  | _ => none

/-- The `([a-zA-Z])[:\s]?$` tail of the drive-reference regex. -/
def driveCore : List Char → Option Char
  | [c] => if c.isAlpha then some c else none
  | [c, d] => if c.isAlpha ∧ (d = ':' ∨ isSpacePy d) then some c else none
  | _ => none

/-- `re.match(r"^(?:drive\s+)?([a-zA-Z])[:\s]?$", path)`, returning the
captured letter.  When the `drive`-word branch matches, the remainder has at
most two characters to check; backtracking to the no-word alternative cannot
succeed there since the whole string then has at least seven characters, so
it is not modelled. -/
def driveMatch (s : List Char) : Option Char :=
  match stripDriveWord s with
  | some rest => driveCore rest
  | none => driveCore s

/-- The `f"{drive_letter.upper()}:\\"` drive-root string. -/
def driveRoot (c : Char) : String :=
  String.mk [c.toUpper, ':', '\\']

/-- The rule-5 test `len(path) > 1 and path[0].isalpha() and path[1] == ':'`. -/
def looksDriveQualified (p : String) : Bool :=
  match p.toList with
  | c0 :: c1 :: _ => c0.isAlpha ∧ c1 = ':'
  | _ => false

/-- The tail of `resolve_path` after the alias and drive-root checks:
rule 5 (return the token unchanged) else rule 6 (normalize against the
current path). -/
def resolveTail (cur : String) (p : String) : String :=
  if looksDriveQualified p then p
  else normpathPosix (pjoin cur p)

/-- `FileOperations.resolve_path`.  `cur` is `self.current_path`, `home`
seeds `COMMON_LOCATIONS`, `fs` backs the `os.path.exists` drive-root check. -/
def resolve_path (cur home : String) (fs : FS) (path : String) : String :=
  if path = "" then cur
  else
    let p := pyStrip path
    if isAbsPosix p then p
    else
      match (commonLocations home).lookup (lowerStr p) with
      | some v => v
      | none =>
        match driveMatch p.toList with
        | some c =>
          if fs.pathExists (driveRoot c) then driveRoot c
          else resolveTail cur p
        | none => resolveTail cur p

/-- Whether `resolve_path` takes the rule-4 branch (drive reference whose
root exists) and returns the drive root. -/
def rule4Hit (home : String) (fs : FS) (path : String) : Bool :=
  if path = "" then false
  else
    let p := pyStrip path
    if isAbsPosix p then false
    else
      match (commonLocations home).lookup (lowerStr p) with
      | some _ => false
      | none =>
        match driveMatch p.toList with
        | some c => decide (fs.pathExists (driveRoot c))
        | none => false

/-- Whether `resolve_path` takes the rule-5 branch (letter-plus-colon token
returned unchanged). -/
def rule5Hit (home : String) (fs : FS) (path : String) : Bool :=
  if path = "" then false
  else
    let p := pyStrip path
    if isAbsPosix p then false
    else
      match (commonLocations home).lookup (lowerStr p) with
      | some _ => false
      | none =>
        match driveMatch p.toList with
        | some c =>
          if fs.pathExists (driveRoot c) then false
          else looksDriveQualified p
        | none => looksDriveQualified p

/-- The empty filesystem. -/
def fsEmpty : FS := { files := [], dirs := [] }

/-- A filesystem on which the Windows drive root `D:\` exists. -/
def fsWithDriveD : FS := { files := ["D:\\"], dirs := [] }

/-- Python's substring test `sub in l`: `sub` occurs contiguously in `l`. -/
def subIn (sub : List Char) : List Char → Bool
  | [] => sub.isEmpty
  | c :: rest => sub.isPrefixOf (c :: rest) || subIn sub rest

/-- `self.video_extensions`. -/
def videoExtensions : List String :=
  [".mp4", ".mkv", ".avi", ".mov", ".wmv", ".flv", ".webm",
   ".m4v", ".mpg", ".mpeg", ".3gp", ".3g2", ".m2ts"]

/-- `any(file.lower().endswith(ext) for ext in self.video_extensions)`. -/
def hasVideoExt (f : String) : Bool :=
  videoExtensions.any (fun ext => ext.toList.isSuffixOf (lowerList f))

/-- `str.split()` with no argument: split on runs of whitespace, dropping
empty words.  `cur` accumulates the current word reversed. -/
def splitWsGo (cur : List Char) : List Char → List (List Char)
  | [] => if cur = [] then [] else [cur.reverse]
  | c :: cs =>
    if isSpacePy c then
      if cur = [] then splitWsGo [] cs else cur.reverse :: splitWsGo [] cs
    else splitWsGo (c :: cur) cs

/-- `str.split()` with no argument. -/
def splitWs (l : List Char) : List (List Char) := splitWsGo [] l

/-- The per-candidate score of `play_movie`: start at 0, add 50 when the
lowered query is a substring of the lowered filename, then add 10 for each
word of the lowered query found as a substring of the lowered filename. -/
def movieScore (movieName f : String) : Nat :=
  let fileLower := lowerList f
  let movieLower := lowerList movieName
  let base := if subIn movieLower fileLower then 50 else 0
  (splitWs movieLower).foldl
    (fun s w => if subIn w fileLower then s + 10 else s) base

/-- The `found_movies` list of `play_movie`: walk the tree (given as the
`os.walk` directory/file listing in traversal order), keep files with a
video extension and positive score, in encounter order. -/
def findMovies (movieName : String) (walkList : List (String × List String)) :
    List (String × Nat) :=
  walkList.flatMap (fun rf =>
    rf.2.filterMap (fun f =>
      if hasVideoExt f then
        let sc := movieScore movieName f
        if sc > 0 then some (pjoin rf.1 f, sc) else none
      else none))

/-- Stable insertion keeping scores descending; an element is inserted after
every earlier element with a strictly greater or equal score. -/
def insertDesc (x : String × Nat) : List (String × Nat) → List (String × Nat)
  | [] => [x]
  | y :: ys => if y.2 > x.2 then y :: insertDesc x ys else x :: y :: ys

/-- `found_movies.sort(key=lambda x: x[1], reverse=True)`: Python's sort is
stable, and with `reverse=True` elements with equal keys keep their original
order; stable descending insertion sort produces that unique result. -/
def stableSortDesc : List (String × Nat) → List (String × Nat)
  | [] => []
  | x :: xs => insertDesc x (stableSortDesc xs)

/-- The mutable world a handler call sees: the alias-table seed `home`
(`os.path.expanduser("~")`), `self.current_path`, the filesystem, the
`os.walk` and `os.listdir` enumeration oracles (listing order is
OS-provided), and the paths handed to the external launcher collaborators. -/
structure World where
  home : String
  current : String
  fs : FS
  walk : String → List (String × List String)
  listdir : String → List String
  launched : List String

/-- Resolve a token in a world, as `self.resolve_path` does. -/
def World.resolve (w : World) (path : String) : String :=
  resolve_path w.current w.home w.fs path

/-- `FileOperations.play_movie`. -/
def play_movie (movieName : String) (w : World) : String × World :=
  if movieName = "" then ("No movie name specified.", w)
  else
    let moviesDir := ((commonLocations w.home).lookup "movies").getD ""
    if w.fs.pathExists moviesDir then
      let found := findMovies movieName (w.walk moviesDir)
      if found = [] then
        ("No movie found with name '" ++ movieName ++ "'", w)
      else
        let best := (stableSortDesc found).headD ("", 0)
        ("Playing movie: " ++ pbasename best.1,
         { w with launched := w.launched ++ [best.1] })
    else ("Movies directory does not exist: " ++ moviesDir, w)

/-- Move one filesystem entry from `src` to `dst`: remove the entry at `src`
and record an entry of the same kind at `dst` (`shutil.move` / `os.rename`
onto a non-existing destination). -/
def doMove (fs : FS) (src dst : String) : FS :=
  { files := (if fs.isFile src then [dst] else []) ++
      fs.files.filter (fun q => q ≠ src),
    dirs := (if fs.isDir src then [dst] else []) ++
      fs.dirs.filter (fun q => q ≠ src) }

/-- `shutil.move` of a regular file onto a non-existing destination path. -/
def doMoveFile (fs : FS) (src dst : String) : FS :=
  { files := dst :: fs.files.filter (fun q => q ≠ src), dirs := fs.dirs }

/-- `FileOperations.create_folder`. -/
def create_folder (folderName location : String) (w : World) : String × World :=
  let folderName := pyStrip folderName
  let basePath := if location = "" then w.current else w.resolve location
  let folderPath := pjoin basePath folderName
  if w.fs.pathExists folderPath then
    ("Folder already exists: " ++ folderPath, w)
  else
    ("Created folder: " ++ folderPath,
     { w with fs := { w.fs with dirs := folderPath :: w.fs.dirs } })

/-- `FileOperations.create_file` (file contents are not tracked by the
filesystem model; only the entry is recorded). -/
def create_file (fileName location _content : String) (w : World) :
    String × World :=
  let fileName := pyStrip fileName
  let basePath := if location = "" then w.current else w.resolve location
  let filePath := pjoin basePath fileName
  if w.fs.pathExists filePath then
    ("File already exists: " ++ filePath, w)
  else
    ("Created file: " ++ filePath,
     { w with fs := { w.fs with files := filePath :: w.fs.files } })

/-- `FileOperations.rename_item`. -/
def rename_item (oldName newName location : String) (w : World) :
    String × World :=
  let basePath := if location = "" then w.current else w.resolve location
  let oldPath := pjoin basePath oldName
  let newPath := pjoin basePath newName
  if w.fs.pathExists oldPath then
    if w.fs.pathExists newPath then
      ("Destination already exists: " ++ newPath, w)
    else
      ("Renamed from " ++ oldPath ++ " to " ++ newPath,
       { w with fs := doMove w.fs oldPath newPath })
  else ("Source does not exist: " ++ oldPath, w)

/-- `FileOperations.move_item`. -/
def move_item (source destination : String) (w : World) : String × World :=
  let sourcePath := w.resolve source
  let destPath0 := w.resolve destination
  if w.fs.pathExists sourcePath then
    let destPath :=
      if w.fs.isDir destPath0 then pjoin destPath0 (pbasename sourcePath)
      else destPath0
    if w.fs.pathExists destPath then
      ("Destination already exists: " ++ destPath, w)
    else
      ("Moved from " ++ sourcePath ++ " to " ++ destPath,
       { w with fs := doMove w.fs sourcePath destPath })
  else ("Source does not exist: " ++ sourcePath, w)

/-- The per-file loop of `move_all_files`: returns the final filesystem and
the `moved_files` and `skipped_files` counters. -/
def moveLoop (fs : FS) (sp dp : String) : List String → FS × Nat × Nat
  | [] => (fs, 0, 0)
  | f :: rest =>
    if fs.pathExists (pjoin dp f) then
      let r := moveLoop fs sp dp rest
      (r.1, r.2.1, r.2.2 + 1)
    else
      let r := moveLoop (doMoveFile fs (pjoin sp f) (pjoin dp f)) sp dp rest
      (r.1, r.2.1 + 1, r.2.2)

/-- `files_to_move`: the direct children of `sp` that are regular files
(the `os.listdir` comprehension filtered by `os.path.isfile`). -/
def filesToMove (w : World) (sp : String) : List String :=
  (w.listdir sp).filter (fun f => w.fs.isFile (pjoin sp f))

/-- `FileOperations.move_all_files`. -/
def move_all_files (sourceDir destinationDir : String) (w : World) :
    String × World :=
  let sourcePath := w.resolve sourceDir
  let destPath := w.resolve destinationDir
  if ¬ w.fs.pathExists sourcePath then
    ("Source directory does not exist: " ++ sourcePath, w)
  else if ¬ w.fs.isDir sourcePath then
    ("Source is not a directory: " ++ sourcePath, w)
  else if ¬ w.fs.pathExists destPath then
    ("Destination directory does not exist: " ++ destPath, w)
  else if ¬ w.fs.isDir destPath then
    ("Destination is not a directory: " ++ destPath, w)
  else
    let files := filesToMove w sourcePath
    if files = [] then
      ("No files found in the source directory: " ++ sourcePath, w)
    else
      let r := moveLoop w.fs sourcePath destPath files
      let result := "Moved " ++ toString r.2.1 ++ " files from " ++
        sourcePath ++ " to " ++ destPath
      let result :=
        if r.2.2 > 0 then
          result ++ "\nSkipped " ++ toString r.2.2 ++
            " files that already exist in the destination."
        else result
      (result, { w with fs := r.1 })

/-- `FileOperations.open_file_explorer`: the launcher call is recorded in
`launched` (fire-and-forget collaborator). -/
def open_file_explorer (location : String) (w : World) : String × World :=
  let pathToOpen := if location = "" then w.current else w.resolve location
  if w.fs.pathExists pathToOpen then
    ("Opened file explorer at: " ++ pathToOpen,
     { w with launched := w.launched ++ [pathToOpen] })
  else ("Location does not exist: " ++ pathToOpen, w)

/-- `search_term.lower() in file.lower()`. -/
def matchesCI (term f : String) : Bool :=
  subIn (lowerList term) (lowerList f)

/-- The inner `for file in files` loop of `search_files`, with its
`break` as soon as `max_files = 10` matches are collected. -/
def searchInner (term root : String) :
    List String → List String → List String
  | [], acc => acc
  | f :: rest, acc =>
    if matchesCI term f then
      let acc1 := acc ++ [pjoin root f]
      if acc1.length ≥ 10 then acc1 else searchInner term root rest acc1
    else searchInner term root rest acc

/-- The outer `for root, _, files in os.walk(...)` loop of `search_files`,
with its top-of-loop `break` once 10 matches are collected. -/
def searchOuter (term : String) :
    List (String × List String) → List String → List String
  | [], acc => acc
  | rf :: rest, acc =>
    if acc.length ≥ 10 then acc
    else searchOuter term rest (searchInner term rf.1 rf.2 acc)

/-- The `found_files` list `search_files` builds. -/
def searchCollect (term : String) (walkList : List (String × List String)) :
    List String :=
  searchOuter term walkList []

/-- Every match of `term` in the walked tree, in traversal order, without
the 10-match cap. -/
def allMatches (term : String) (walkList : List (String × List String)) :
    List String :=
  walkList.flatMap (fun rf => (rf.2.filter (matchesCI term)).map (pjoin rf.1))

/-- `FileOperations.search_files` (the rendered table is presentation; the
returned message is modelled). -/
def search_files (searchTerm searchPath : String) (w : World) :
    String × World :=
  if searchTerm = "" then ("No search term specified.", w)
  else
    let basePath := if searchPath = "" then w.current else w.resolve searchPath
    if w.fs.pathExists basePath then
      let foundFiles := searchCollect searchTerm (w.walk basePath)
      if foundFiles = [] then
        ("No files found containing '" ++ searchTerm ++ "' in " ++ basePath, w)
      else
        ("Found " ++ toString foundFiles.length ++ " files containing '" ++
          searchTerm ++ "'", w)
    else ("Search location does not exist: " ++ basePath, w)

/-- The fixed reply of `execute_operation` for an unrecognized kind. -/
def unrecognizedMsg : String :=
  "Sorry, I couldn't understand that command. Please try again."

/-- `execute_operation(operation, parameters)`: parameters are read with
`parameters.get(key, "")`, modelled as a total map with default `""`. -/
def execute_operation (operation : String) (ps : String → String)
    (w : World) : String × World :=
  if operation = "create_folder" then
    create_folder (ps "folder_name") (ps "location") w
  else if operation = "create_file" then
    create_file (ps "file_name") (ps "location") (ps "content") w
  else if operation = "rename_item" then
    rename_item (ps "old_name") (ps "new_name") (ps "location") w
  else if operation = "move_item" then
    move_item (ps "source") (ps "destination") w
  else if operation = "move_all_files" then
    move_all_files (ps "source_dir") (ps "destination_dir") w
  else if operation = "open_file_explorer" then
    open_file_explorer (ps "location") w
  else if operation = "search_files" then
    search_files (ps "search_term") (ps "search_path") w
  else if operation = "play_movie" then
    play_movie (ps "movie_name") w
  else (unrecognizedMsg, w)

/-- The multi-operation loop of `command`: execute each step in order,
collecting one output per step; a step's failure never skips later steps. -/
def runOps : List (String × (String → String)) → World → List String × World
  | [], w => ([], w)
  | op :: rest, w =>
    let r := execute_operation op.1 op.2 w
    let rs := runOps rest r.2
    (r.1 :: rs.1, rs.2)

/-- The scoring heuristic as the spec words it (§4.5): +50 if the
lower-cased full query is a substring of the lower-cased filename, plus
+10 for every whitespace-delimited word occurrence of the query found as a
substring of the lower-cased filename, both bonuses additive. -/
def specScore (query f : String) : Nat :=
  (if subIn (lowerList query) (lowerList f) then 50 else 0) +
    10 * ((splitWs (lowerList query)).filter
      (fun w => subIn w (lowerList f))).length

/-- A concrete world used by the witnesses: home `/h`, a source directory
`/h/s` with `a.txt` and `b.txt`, a destination `/h/d` already holding
`b.txt`, and a `/h/Movies` tree with two video files. -/
def wExample : World :=
  { home := "/h", current := "/h",
    fs := { files := ["/h/s/a.txt", "/h/s/b.txt", "/h/d/b.txt"],
            dirs := ["/h", "/h/s", "/h/d", "/h/Movies"] },
    walk := fun p =>
      if p = "/h/Movies" then
        [("/h/Movies", ["Inception.2010.mkv", "Other.mp4", "notes.txt"])]
      else [],
    listdir := fun p =>
      if p = "/h/s" then ["a.txt", "b.txt"]
      else if p = "/h/d" then ["b.txt"]
      else [],
    launched := [] }

/-- The parameters of the witness plan's first step: rename a file that does
not exist. -/
def psRename : String → String := fun k =>
  if k = "old_name" then "ghost.txt"
  else if k = "new_name" then "g2.txt"
  else ""

/-- The parameters of the witness plan's second step: create a new folder. -/
def psNewFolder : String → String := fun k =>
  if k = "folder_name" then "newdir" else ""

/-- A two-step plan whose first step fails and whose second succeeds. -/
def opsExample : List (String × (String → String)) :=
  [("rename_item", psRename), ("create_folder", psNewFolder)]

/-- A directory-entry name as `os.listdir` returns it: free of `/`. -/
def slashFree (f : String) : Bool :=
  f.toList.all (fun c => c ≠ '/')

/-! ### Resolver lemmas -/

theorem toList_append (a b : String) : (a ++ b).toList = a.toList ++ b.toList :=
  String.data_append a b

theorem isAbsPosix_append_left {a : String} (b : String)
    (h : isAbsPosix a = true) : isAbsPosix (a ++ b) = true := by
  unfold isAbsPosix at h ⊢
  rw [toList_append]
  cases hl : a.toList with
  | nil => rw [hl] at h; simp at h
  | cons c t => rw [hl] at h; simp at h; simp [h]

theorem pjoin_abs {a : String} (b : String) (h : isAbsPosix a = true) :
    isAbsPosix (pjoin a b) = true := by
  unfold pjoin
  split
  · assumption
  · split
    · rename_i hor
      rcases hor with he | _
      · subst he; simp [isAbsPosix] at h
      · exact isAbsPosix_append_left b h
    · exact isAbsPosix_append_left b (isAbsPosix_append_left "/" h)

theorem lookup_forall {α : Type} [BEq α] (P : String → Prop) :
    ∀ (l : List (α × String)) (k : α) (v : String),
      (∀ kv ∈ l, P kv.2) → l.lookup k = some v → P v := by
  intro l
  induction l with
  | nil => intro k v _ hlk; simp [List.lookup] at hlk
  | cons kv rest ih =>
    intro k v hall hlk
    rw [List.lookup] at hlk
    cases hbeq : k == kv.1 with
    | true =>
      rw [hbeq] at hlk
      simp at hlk
      exact hlk ▸ hall kv (by simp)
    | false =>
      rw [hbeq] at hlk
      exact ih k v (fun x hx => hall x (by simp [hx])) hlk

theorem commonLocations_abs {home : String} (h : isAbsPosix home = true) :
    ∀ kv ∈ commonLocations home, isAbsPosix kv.2 = true := by
  intro kv hkv
  simp only [commonLocations, List.mem_cons, List.not_mem_nil, or_false] at hkv
  rcases hkv with h1 | h1 | h1 | h1 | h1 | h1 | h1 | h1 | h1 | h1 | h1 | h1 |
    h1 | h1 <;> subst h1 <;> first
  | exact h
  | exact pjoin_abs _ h

theorem initSlashes_pos {l : List Char} (h : l.head? = some '/') :
    1 ≤ initSlashes l := by
  unfold initSlashes
  split
  · omega
  · split
    · omega
    · rename_i hne
      exfalso
      apply hne
      cases l with
      | nil => simp at h
      | cons c t => simp at h; simp [h, List.take]

theorem normListPosix_abs {l : List Char} (h : l.head? = some '/') :
    (normListPosix l).head? = some '/' := by
  unfold normListPosix
  have hne : l ≠ [] := by cases l <;> simp_all
  rw [if_neg hne]
  have hk := initSlashes_pos h
  obtain ⟨m, hm⟩ : ∃ m, initSlashes l = m + 1 :=
    ⟨initSlashes l - 1, by omega⟩
  simp only [hm, List.replicate_succ]
  split
  · rename_i hres; simp at hres
  · simp

theorem normpathPosix_abs {s : String} (h : isAbsPosix s = true) :
    isAbsPosix (normpathPosix s) = true := by
  unfold isAbsPosix at h ⊢
  unfold normpathPosix
  simpa using normListPosix_abs (by simpa using h)

/-- **C1, counterexample.**  On the rule-5 branch the resolver returns a
drive-relative token unchanged: `resolve_path` on the token `"d:x"` (current
path `/home/user`, empty filesystem) returns `"d:x"`, which is not an
absolute path — refuting the claim that `resolve` always returns an
absolute path. -/
theorem C1_counterexample :
    resolve_path "/home/user" "/home/user" fsEmpty "d:x" = "d:x" ∧
      isAbsPosix "d:x" = false := by
  constructor
  · rfl
  · rfl

/-- **C1, amended.**  Provided the current path and the alias-table seed are
absolute, `resolve_path` returns an absolute path on every branch *except*
the drive-reference branches: the rule-4 branch returns the `X:\`-style
drive root and the rule-5 branch returns a drive-relative token (letter plus
`:` prefix) unchanged, neither of which is POSIX-absolute. -/
theorem C1_amended (cur home : String) (fs : FS) (tok : String)
    (hcur : isAbsPosix cur = true) (hhome : isAbsPosix home = true)
    (h4 : rule4Hit home fs tok = false) (h5 : rule5Hit home fs tok = false) :
    isAbsPosix (resolve_path cur home fs tok) = true := by
  unfold resolve_path
  by_cases hemp : tok = ""
  · simp [hemp, hcur]
  · rw [if_neg hemp]
    unfold rule4Hit at h4
    unfold rule5Hit at h5
    rw [if_neg hemp] at h4 h5
    by_cases habs : isAbsPosix (pyStrip tok) = true
    · simp [habs]
    · simp only [habs, Bool.false_eq_true, if_false] at h4 h5 ⊢
      cases hlk : (commonLocations home).lookup (lowerStr (pyStrip tok)) with
      | some v =>
        simpa using lookup_forall (fun v => isAbsPosix v = true)
          (commonLocations home) (lowerStr (pyStrip tok)) v
          (commonLocations_abs hhome) hlk
      | none =>
        rw [hlk] at h4 h5
        have h4a : (match driveMatch (pyStrip tok).toList with
            | some c => decide (fs.pathExists (driveRoot c))
            | none => false) = false := h4
        have h5a : (match driveMatch (pyStrip tok).toList with
            | some c =>
              if fs.pathExists (driveRoot c) then false
              else looksDriveQualified (pyStrip tok)
            | none => looksDriveQualified (pyStrip tok)) = false := h5
        show isAbsPosix (match driveMatch (pyStrip tok).toList with
            | some c =>
              if fs.pathExists (driveRoot c) then driveRoot c
              else resolveTail cur (pyStrip tok)
            | none => resolveTail cur (pyStrip tok)) = true
        have htail : looksDriveQualified (pyStrip tok) = false →
            isAbsPosix (resolveTail cur (pyStrip tok)) = true := by
          intro hq
          unfold resolveTail
          rw [if_neg (by simp [hq])]
          exact normpathPosix_abs (pjoin_abs _ hcur)
        generalize hdm : driveMatch (pyStrip tok).toList = dm at h4a h5a ⊢
        cases dm with
        | some c =>
          have h4b : decide (fs.pathExists (driveRoot c)) = false := h4a
          have hnex : ¬ fs.pathExists (driveRoot c) := by
            simpa using h4b
          have h5b : (if fs.pathExists (driveRoot c) then false
              else looksDriveQualified (pyStrip tok)) = false := h5a
          rw [if_neg hnex] at h5b
          show isAbsPosix (if fs.pathExists (driveRoot c) then driveRoot c
              else resolveTail cur (pyStrip tok)) = true
          rw [if_neg hnex]
          exact htail h5b
        | none => exact htail h5a

theorem C1_amended_witness :
    isAbsPosix "/home/user" = true ∧
      rule4Hit "/home/user" fsEmpty "docs" = false ∧
      rule5Hit "/home/user" fsEmpty "docs" = false ∧
      isAbsPosix (resolve_path "/home/user" "/home/user" fsEmpty "docs") =
        true :=
  ⟨by decide, by decide, by decide,
    C1_amended "/home/user" "/home/user" fsEmpty "docs"
      (by decide) (by decide) (by decide) (by decide)⟩

/-- **C2, counterexample.**  The resolver is *not* filesystem-independent:
on the token `"d"` it returns the drive root `D:\` when that root exists and
the normalized current-path join when it does not, so two runs over
different filesystem states disagree — the rule-4 branch performs an
`os.path.exists` check. -/
theorem C2_counterexample :
    resolve_path "/home/user" "/home/user" fsEmpty "d" ≠
      resolve_path "/home/user" "/home/user" fsWithDriveD "d" := by
  decide

/-- **C2, amended.**  The resolver consults the filesystem only through the
rule-4 drive-root existence check: for every token whose stripped form does
not match the drive-reference pattern, the result is identical for any two
filesystem states. -/
theorem C2_amended (cur home tok : String)
    (h : driveMatch (pyStrip tok).toList = none) :
    ∀ fs1 fs2 : FS,
      resolve_path cur home fs1 tok = resolve_path cur home fs2 tok := by
  intro fs1 fs2
  unfold resolve_path
  by_cases hemp : tok = ""
  · simp [hemp]
  · rw [if_neg hemp, if_neg hemp]
    by_cases habs : isAbsPosix (pyStrip tok) = true
    · simp [habs]
    · simp only [eq_false habs, Bool.false_eq_true, if_false]
      cases hlk : (commonLocations home).lookup (lowerStr (pyStrip tok)) with
      | some v => rfl
      | none => rw [h]

theorem C2_amended_witness :
    driveMatch (pyStrip "foo").toList = none ∧
      resolve_path "/home/user" "/home/user" fsEmpty "foo" =
        resolve_path "/home/user" "/home/user" fsWithDriveD "foo" :=
  ⟨by decide,
    C2_amended "/home/user" "/home/user" "foo" (by decide) fsEmpty fsWithDriveD⟩

/-! ### Dispatch and play_movie guards (C9, C10) -/

/-- **C9.**  For every operation kind outside the eight recognized kinds and
every parameter set, `execute_operation` returns the single fixed
clarification reply with the world unchanged (the dispatcher is a total
function: no fault is raised or propagated). -/
theorem C9_theorem (op : String) (ps : String → String) (w : World)
    (h : op ∉ ["create_folder", "create_file", "rename_item", "move_item",
      "move_all_files", "open_file_explorer", "search_files", "play_movie"]) :
    execute_operation op ps w = (unrecognizedMsg, w) := by
  simp only [List.mem_cons, List.not_mem_nil, or_false, not_or] at h
  obtain ⟨h1, h2, h3, h4, h5, h6, h7, h8⟩ := h
  simp [execute_operation, h1, h2, h3, h4, h5, h6, h7, h8]

theorem C9_witness :
    execute_operation "dance" (fun _ => "") wExample =
      (unrecognizedMsg, wExample) :=
  C9_theorem "dance" (fun _ => "") wExample (by decide)

/-- **C10.**  On the empty query `play_movie` immediately returns the fixed
"No movie name specified." failure with the world unchanged: since this
holds for *every* world, the result is independent of the media tree (no
traversal) and the launched-paths list is untouched (the default-player
launcher is never invoked). -/
theorem C10_theorem (w : World) :
    play_movie "" w = ("No movie name specified.", w) := rfl

/-! ### Scoring (C5) -/

theorem foldl_add_ten {α : Type} (p : α → Bool) :
    ∀ (l : List α) (b : Nat),
      l.foldl (fun s x => if p x then s + 10 else s) b =
        b + 10 * (l.filter p).length := by
  intro l
  induction l with
  | nil => intro b; simp
  | cons x xs ih =>
    intro b
    rw [List.foldl_cons, List.filter_cons]
    cases hp : p x with
    | true => rw [if_pos rfl, ih]; simp; omega
    | false => rw [if_neg (by simp), ih]; simp

/-- **C5.**  The fuzzy score computed by `play_movie` equals the spec's
formula — 50 when the lower-cased full query is a substring of the
lower-cased filename plus 10 per whitespace-delimited word occurrence of
the query found as a substring, duplicates counted again, the two bonuses
additive and independent — and every candidate `play_movie` collects has a
strictly positive score (score-0 candidates are excluded). -/
theorem C5_theorem (q f : String) (hext : hasVideoExt f = true) :
    movieScore q f = specScore q f ∧
      ∀ (walkList : List (String × List String)) (c : String × Nat),
        c ∈ findMovies q walkList → 0 < c.2 := by
  constructor
  · unfold movieScore specScore
    rw [foldl_add_ten]
  · intro walkList c hc
    simp only [findMovies, List.mem_flatMap, List.mem_filterMap] at hc
    obtain ⟨rf, _, g, _, heq⟩ := hc
    by_cases h1 : hasVideoExt g = true
    · rw [if_pos h1] at heq
      by_cases h2 : movieScore q g > 0
      · rw [if_pos h2] at heq
        cases heq
        exact h2
      · rw [if_neg h2] at heq
        exact absurd heq (by simp)
    · rw [if_neg h1] at heq
      exact absurd heq (by simp)

theorem C5_witness :
    hasVideoExt "Inception.2010.mkv" = true ∧
      (movieScore "inception" "Inception.2010.mkv" =
          specScore "inception" "Inception.2010.mkv" ∧
        ∀ (walkList : List (String × List String)) (c : String × Nat),
          c ∈ findMovies "inception" walkList → 0 < c.2) :=
  ⟨by decide, C5_theorem "inception" "Inception.2010.mkv" (by decide)⟩

/-! ### Best-match selection (C4) -/

theorem insertDesc_ne_nil (x : String × Nat) :
    ∀ l : List (String × Nat), insertDesc x l ≠ [] := by
  intro l
  cases l with
  | nil => simp [insertDesc]
  | cons y ys => simp only [insertDesc]; split <;> simp

theorem stableSortDesc_ne_nil {l : List (String × Nat)} (h : l ≠ []) :
    stableSortDesc l ≠ [] := by
  cases l with
  | nil => exact absurd rfl h
  | cons x xs => exact insertDesc_ne_nil x (stableSortDesc xs)

/-- The head of the stable descending sort is the first element of the
original list attaining the maximal score. -/
theorem sortDesc_head_firstMax :
    ∀ (l : List (String × Nat)) (d : String × Nat), l ≠ [] →
      (stableSortDesc l).headD d ∈ l ∧
        (∀ c ∈ l, c.2 ≤ ((stableSortDesc l).headD d).2) ∧
        ∃ l1 l2, l = l1 ++ (stableSortDesc l).headD d :: l2 ∧
          ∀ c ∈ l1, c.2 < ((stableSortDesc l).headD d).2 := by
  intro l
  induction l with
  | nil => intro d h; exact absurd rfl h
  | cons x xs ih =>
    intro d _
    cases hxs : xs with
    | nil =>
      subst hxs
      refine ⟨by simp [stableSortDesc, insertDesc], ?_, [], [], by
        simp [stableSortDesc, insertDesc], by simp⟩
      intro c hc
      simp only [List.mem_singleton] at hc
      simp [hc, stableSortDesc, insertDesc]
    | cons y ys =>
      subst hxs
      obtain ⟨z, zs, hzzs⟩ :=
        List.exists_cons_of_ne_nil (stableSortDesc_ne_nil
          (l := y :: ys) (by simp))
      obtain ⟨hmem, hmax, l1, l2, hsplit, hfirst⟩ := ih d (by simp)
      have hb : (stableSortDesc (y :: ys)).headD d = z := by
        rw [hzzs]; rfl
      rw [hb] at hmem hmax hsplit hfirst
      have hsort : stableSortDesc (x :: y :: ys) =
          insertDesc x (z :: zs) := by
        rw [← hzzs]; rfl
      by_cases hgt : z.2 > x.2
      · have hins : insertDesc x (z :: zs) = z :: insertDesc x zs := by
          simp [insertDesc, hgt]
        rw [hsort, hins]
        simp only [List.headD_cons]
        refine ⟨by simp [hmem], ?_, x :: l1, l2, by simp [hsplit], ?_⟩
        · intro c hc
          rcases List.mem_cons.mp hc with hcx | hcs
          · subst hcx; omega
          · exact hmax c hcs
        · intro c hc
          rcases List.mem_cons.mp hc with hcx | hcs
          · subst hcx; omega
          · exact hfirst c hcs
      · have hins : insertDesc x (z :: zs) = x :: z :: zs := by
          simp [insertDesc, hgt]
        rw [hsort, hins]
        simp only [List.headD_cons]
        refine ⟨by simp, ?_, [], y :: ys, by simp, by simp⟩
        intro c hc
        rcases List.mem_cons.mp hc with hcx | hcs
        · subst hcx; omega
        · have := hmax c hcs
          omega

/-- **C4.**  For every query and media tree with at least one positive-score
candidate, `play_movie` hands the external launcher the candidate with the
maximal score, and among equal maximal scores the one first encountered in
traversal order: the selected candidate is in the collected list, its score
bounds every candidate's score, and every candidate strictly before it in
encounter order has a strictly smaller score. -/
theorem C4_theorem (movieName : String) (w : World)
    (hname : movieName ≠ "")
    (hdir : w.fs.pathExists (((commonLocations w.home).lookup "movies").getD ""))
    (hfound : findMovies movieName
      (w.walk (((commonLocations w.home).lookup "movies").getD "")) ≠ []) :
    let moviesDir := ((commonLocations w.home).lookup "movies").getD ""
    let found := findMovies movieName (w.walk moviesDir)
    let best := (stableSortDesc found).headD ("", 0)
    (play_movie movieName w).2.launched = w.launched ++ [best.1] ∧
      (play_movie movieName w).1 = "Playing movie: " ++ pbasename best.1 ∧
      best ∈ found ∧ (∀ c ∈ found, c.2 ≤ best.2) ∧
      ∃ l1 l2, found = l1 ++ best :: l2 ∧ ∀ c ∈ l1, c.2 < best.2 := by
  intro moviesDir found best
  obtain ⟨hmem, hmax, hsplit⟩ :=
    sortDesc_head_firstMax found ("", 0) hfound
  refine ⟨?_, ?_, hmem, hmax, hsplit⟩
  · simp [play_movie, hname, hdir, hfound, moviesDir, found, best]
  · simp [play_movie, hname, hdir, hfound, moviesDir, found, best]

theorem C4_witness :
    let moviesDir := ((commonLocations wExample.home).lookup "movies").getD ""
    let found := findMovies "inception" (wExample.walk moviesDir)
    let best := (stableSortDesc found).headD ("", 0)
    (play_movie "inception" wExample).2.launched =
        wExample.launched ++ [best.1] ∧
      (play_movie "inception" wExample).1 =
        "Playing movie: " ++ pbasename best.1 ∧
      best ∈ found ∧ (∀ c ∈ found, c.2 ≤ best.2) ∧
      ∃ l1 l2, found = l1 ++ best :: l2 ∧ ∀ c ∈ l1, c.2 < best.2 :=
  C4_theorem "inception" wExample (by decide) (by decide) (by decide)

/-! ### Batch runner (C3) -/

/-- **C3.**  The multi-operation loop produces exactly one output per plan
step, in plan order, and executes every step on the state left by its
predecessors regardless of earlier outcomes: the i-th output always exists
and is the result of executing the i-th operation after the first i steps
(no short-circuit on failure). -/
theorem C3_theorem :
    ∀ (ops : List (String × (String → String))) (w : World),
      (runOps ops w).1.length = ops.length ∧
        ∀ (i : Nat) (h : i < ops.length),
          (runOps ops w).1[i]? =
            some (execute_operation (ops[i].1) (ops[i].2)
              (runOps (ops.take i) w).2).1 := by
  intro ops
  induction ops with
  | nil =>
    intro w
    exact ⟨rfl, fun i h => absurd h (Nat.not_lt_zero i)⟩
  | cons op rest ih =>
    intro w
    constructor
    · simp only [runOps, List.length_cons]
      rw [(ih (execute_operation op.1 op.2 w).2).1]
    · intro i h
      cases i with
      | zero => simp [runOps]
      | succ i =>
        have h' : i < rest.length := by simpa using h
        have hrec := (ih (execute_operation op.1 op.2 w).2).2 i h'
        simp only [runOps, List.getElem?_cons_succ, List.getElem_cons_succ,
          List.take_succ_cons]
        exact hrec

theorem C3_witness :
    (runOps opsExample wExample).1.length = 2 ∧
      (runOps opsExample wExample).1[1]? =
        some (execute_operation "create_folder" psNewFolder
          (runOps (opsExample.take 1) wExample).2).1 :=
  ⟨(C3_theorem opsExample wExample).1,
    (C3_theorem opsExample wExample).2 1 (by decide)⟩

/-! ### Move-into semantics (C6) -/

theorem doMove_dst_exists (fs : FS) (sp ed : String)
    (h : fs.pathExists sp) : (doMove fs sp ed).pathExists ed := by
  unfold FS.pathExists at h ⊢
  unfold doMove
  rcases h with h | h
  · left
    simp [FS.isFile, h]
  · right
    simp [FS.isDir, h]

theorem doMove_src_gone (fs : FS) (sp ed : String) (hne : ed ≠ sp) :
    ¬ (doMove fs sp ed).pathExists sp := by
  unfold doMove FS.pathExists
  intro h
  rcases h with h | h <;> rcases List.mem_append.mp h with h1 | h1
  · split at h1
    · simp at h1; exact hne h1.symm
    · simp at h1
  · simp at h1
  · split at h1
    · simp at h1; exact hne h1.symm
    · simp at h1
  · simp at h1

/-- **C6.**  When the resolved source exists and the resolved destination is
an existing directory, the effective destination is
`destination/basename(source)`; if that path already exists `move_item`
fails with "Destination already exists" and changes nothing, otherwise it
reports the move and the entry ends up at the effective destination and is
gone from the source path. -/
theorem C6_theorem (src dst : String) (w : World)
    (hs : w.fs.pathExists (w.resolve src))
    (hd : w.fs.isDir (w.resolve dst)) :
    let sp := w.resolve src
    let ed := pjoin (w.resolve dst) (pbasename sp)
    (w.fs.pathExists ed →
        move_item src dst w = ("Destination already exists: " ++ ed, w)) ∧
      (¬ w.fs.pathExists ed →
        (move_item src dst w).1 = "Moved from " ++ sp ++ " to " ++ ed ∧
          (move_item src dst w).2.fs.pathExists ed ∧
          ¬ (move_item src dst w).2.fs.pathExists sp) := by
  intro sp ed
  have hddec : w.fs.isDir (w.resolve dst) = True := eq_true hd
  constructor
  · intro hex
    simp [move_item, hs, hd, hex, sp, ed]
  · intro hex
    have hmv : move_item src dst w =
        ("Moved from " ++ sp ++ " to " ++ ed,
          { w with fs := doMove w.fs sp ed }) := by
      simp [move_item, hs, hd, hex, sp, ed]
    have hne : ed ≠ sp := fun he => hex (he ▸ hs)
    rw [hmv]
    exact ⟨rfl, doMove_dst_exists w.fs sp ed hs,
      doMove_src_gone w.fs sp ed hne⟩

theorem C6_witness :
    let sp := wExample.resolve "s/a.txt"
    let ed := pjoin (wExample.resolve "d") (pbasename sp)
    ¬ wExample.fs.pathExists ed ∧
      (move_item "s/a.txt" "d" wExample).1 =
        "Moved from " ++ sp ++ " to " ++ ed ∧
      (move_item "s/a.txt" "d" wExample).2.fs.pathExists ed ∧
      ¬ (move_item "s/a.txt" "d" wExample).2.fs.pathExists sp := by
  intro sp ed
  refine ⟨by decide, ?_⟩
  exact ( C6_theorem "s/a.txt" "d" wExample (by decide) (by decide)).2
    (by decide)

/-! ### Bounded search (C8) -/

theorem searchInner_eq (term root : String) :
    ∀ (files : List String) (acc : List String), acc.length < 10 →
      searchInner term root files acc =
        acc ++ ((files.filter (matchesCI term)).map (pjoin root)).take
          (10 - acc.length) := by
  intro files
  induction files with
  | nil => intro acc _; simp [searchInner]
  | cons f rest ih =>
    intro acc hlen
    by_cases hm : matchesCI term f = true
    · simp only [searchInner, List.filter_cons, hm, if_true, List.map_cons]
      have htake : ((pjoin root f) :: (rest.filter (matchesCI term)).map
          (pjoin root)).take (10 - acc.length) =
          (pjoin root f) :: ((rest.filter (matchesCI term)).map
            (pjoin root)).take (10 - (acc.length + 1)) := by
        have h1 : 10 - acc.length = (10 - (acc.length + 1)) + 1 := by omega
        rw [h1, List.take_succ_cons]
      rw [htake]
      by_cases hfull : (acc ++ [pjoin root f]).length ≥ 10
      · rw [if_pos hfull]
        have h0 : 10 - (acc.length + 1) = 0 := by
          simp at hfull; omega
        rw [h0, List.take_zero]
      · rw [if_neg hfull]
        have hlt : (acc ++ [pjoin root f]).length < 10 := by
          simp at hfull ⊢; omega
        rw [ih (acc ++ [pjoin root f]) hlt]
        simp
    · simp only [searchInner, List.filter_cons, hm, if_false,
        Bool.false_eq_true]
      exact ih acc hlen

theorem allMatches_cons (term : String) (rf : String × List String)
    (rest : List (String × List String)) :
    allMatches term (rf :: rest) =
      (rf.2.filter (matchesCI term)).map (pjoin rf.1) ++
        allMatches term rest := by
  simp [allMatches]

theorem allMatches_append (term : String)
    (l1 l2 : List (String × List String)) :
    allMatches term (l1 ++ l2) = allMatches term l1 ++ allMatches term l2 := by
  induction l1 with
  | nil => simp [allMatches]
  | cons rf rest ih =>
    rw [List.cons_append, allMatches_cons, allMatches_cons, ih,
      List.append_assoc]

theorem searchOuter_eq (term : String) :
    ∀ (walkList : List (String × List String)) (acc : List String),
      acc.length ≤ 10 →
      searchOuter term walkList acc =
        acc ++ (allMatches term walkList).take (10 - acc.length) := by
  intro walkList
  induction walkList with
  | nil => intro acc _; simp [searchOuter, allMatches]
  | cons rf rest ih =>
    intro acc hlen
    rw [searchOuter]
    by_cases hfull : acc.length ≥ 10
    · rw [if_pos hfull]
      have : 10 - acc.length = 0 := by omega
      rw [this, List.take_zero]
      simp
    · rw [if_neg hfull]
      have hlt : acc.length < 10 := by omega
      rw [searchInner_eq term rf.1 rf.2 acc hlt]
      set dm := (rf.2.filter (matchesCI term)).map (pjoin rf.1) with hdm
      have hlen2 : (acc ++ dm.take (10 - acc.length)).length ≤ 10 := by
        simp [List.length_take]
        omega
      rw [ih (acc ++ dm.take (10 - acc.length)) hlen2]
      rw [allMatches_cons, ← hdm]
      rw [List.take_append_eq_append_take]
      have hsub : 10 - (acc ++ dm.take (10 - acc.length)).length =
          10 - acc.length - (dm.take (10 - acc.length)).length := by
        simp
        omega
      have hsub2 : (dm.take (10 - acc.length)).length =
          min (10 - acc.length) dm.length := List.length_take _ _
      rw [hsub, hsub2]
      have hsub3 : 10 - acc.length - min (10 - acc.length) dm.length =
          10 - acc.length - dm.length := by omega
      rw [hsub3, List.append_assoc]

/-- **C8.**  For a non-empty term and an existing base path, the
`found_files` list is exactly the first 10 matches in traversal order (so at
most 10 matches are returned, each a file whose *filename* contains the term
case-insensitively), traversal beyond the point where the 10th match is
collected cannot change the result, and the returned message is determined
by that list; the empty term yields the immediate "No search term
specified." failure with the world untouched, for every world. -/
theorem C8_theorem (term searchPath : String) (w : World)
    (hterm : term ≠ "")
    (hbase : w.fs.pathExists
      (if searchPath = "" then w.current else w.resolve searchPath)) :
    let basePath := if searchPath = "" then w.current
                    else w.resolve searchPath
    let found := searchCollect term (w.walk basePath)
    found = (allMatches term (w.walk basePath)).take 10 ∧
      found.length ≤ 10 ∧
      (∀ p ∈ found, ∃ rf ∈ w.walk basePath, ∃ f ∈ rf.2,
        matchesCI term f = true ∧ p = pjoin rf.1 f) ∧
      (∀ pfx rest, 10 ≤ (allMatches term pfx).length →
        searchCollect term (pfx ++ rest) = searchCollect term pfx) ∧
      search_files term searchPath w =
        (if found = [] then
          ("No files found containing '" ++ term ++ "' in " ++ basePath, w)
        else
          ("Found " ++ toString found.length ++ " files containing '" ++
            term ++ "'", w)) ∧
      (∀ (sp : String) (w1 : World),
        search_files "" sp w1 = ("No search term specified.", w1)) := by
  intro basePath found
  have hcoll : ∀ wl : List (String × List String),
      searchCollect term wl = (allMatches term wl).take 10 := by
    intro wl
    rw [searchCollect, searchOuter_eq term wl [] (by simp)]
    simp
  have h2 : (searchCollect term
      (w.walk (if searchPath = "" then w.current else w.resolve searchPath))).length ≤ 10 := by
    rw [hcoll]
    simp [List.length_take]
  have h3 : ∀ p ∈ searchCollect term
      (w.walk (if searchPath = "" then w.current else w.resolve searchPath)),
      ∃ rf ∈ w.walk (if searchPath = "" then w.current else w.resolve searchPath), ∃ f ∈ rf.2,
        matchesCI term f = true ∧ p = pjoin rf.1 f := by
    intro p hp
    rw [hcoll] at hp
    have hp' := List.mem_of_mem_take hp
    simp only [allMatches, List.mem_flatMap, List.mem_map,
      List.mem_filter] at hp'
    obtain ⟨rf, hrf, f, ⟨hf, hmf⟩, hpf⟩ := hp'
    exact ⟨rf, hrf, f, hf, hmf, hpf.symm⟩
  have h4 : ∀ pfx rest, 10 ≤ (allMatches term pfx).length →
      searchCollect term (pfx ++ rest) = searchCollect term pfx := by
    intro pfx rest h10
    rw [hcoll, hcoll, allMatches_append, List.take_append_eq_append_take]
    have h0 : 10 - (allMatches term pfx).length = 0 := by omega
    rw [h0, List.take_zero, List.append_nil]
  have h5 : search_files term searchPath w =
      (if searchCollect term (w.walk (if searchPath = "" then
          w.current else w.resolve searchPath)) = [] then
        ("No files found containing '" ++ term ++ "' in " ++
          (if searchPath = "" then w.current else w.resolve searchPath), w)
      else
        ("Found " ++ toString (searchCollect term
            (w.walk (if searchPath = "" then w.current
              else w.resolve searchPath))).length ++
          " files containing '" ++ term ++ "'", w)) := by
    by_cases hfe : searchCollect term (w.walk (if searchPath = "" then
        w.current else w.resolve searchPath)) = []
    · rw [if_pos hfe]
      simp [search_files, hterm, hbase, hfe]
    · rw [if_neg hfe]
      simp [search_files, hterm, hbase, hfe]
  exact ⟨hcoll _, h2, h3, h4, h5, fun sp w1 => rfl⟩

theorem C8_witness :
    "a" ≠ "" ∧
      (let basePath := if "s" = "" then wExample.current
                       else wExample.resolve "s"
       let found := searchCollect "a" (wExample.walk basePath)
       found = (allMatches "a" (wExample.walk basePath)).take 10 ∧
         found.length ≤ 10 ∧
         (∀ p ∈ found, ∃ rf ∈ wExample.walk basePath, ∃ f ∈ rf.2,
           matchesCI "a" f = true ∧ p = pjoin rf.1 f) ∧
         (∀ pfx rest, 10 ≤ (allMatches "a" pfx).length →
           searchCollect "a" (pfx ++ rest) = searchCollect "a" pfx) ∧
         search_files "a" "s" wExample =
           (if found = [] then
             ("No files found containing '" ++ "a" ++ "' in " ++ basePath,
               wExample)
           else
             ("Found " ++ toString found.length ++ " files containing '" ++
               "a" ++ "'", wExample)) ∧
         (∀ (sp : String) (w1 : World),
           search_files "" sp w1 = ("No search term specified.", w1))) :=
  ⟨by decide, C8_theorem "a" "s" wExample (by decide) (by decide)⟩

/-! ### Bulk move (C7) -/

theorem takeWhile_all_append {p : Char → Bool} :
    ∀ (ys : List Char) (z : Char) (zs : List Char),
      (∀ c ∈ ys, p c = true) → p z = false →
      (ys ++ z :: zs).takeWhile p = ys ∧
        (ys ++ z :: zs).dropWhile p = z :: zs := by
  intro ys
  induction ys with
  | nil =>
    intro z zs _ hz
    simp [List.takeWhile, List.dropWhile, hz]
  | cons y ys ih =>
    intro z zs hall hz
    have hy : p y = true := hall y (by simp)
    have hrest := ih z zs (fun c hc => hall c (by simp [hc])) hz
    simp [List.takeWhile, List.dropWhile, hy, hrest.1, hrest.2]

theorem splitLastSlash {xs1 ys1 xs2 ys2 : List Char}
    (h1 : '/' ∉ ys1) (h2 : '/' ∉ ys2)
    (h : xs1 ++ '/' :: ys1 = xs2 ++ '/' :: ys2) : xs1 = xs2 ∧ ys1 = ys2 := by
  have hrev : ys1.reverse ++ '/' :: xs1.reverse =
      ys2.reverse ++ '/' :: xs2.reverse := by
    have := congrArg List.reverse h
    simpa [List.reverse_append] using this
  have hp1 : ∀ c ∈ ys1.reverse, (decide (c ≠ '/')) = true := by
    intro c hc
    simp only [List.mem_reverse] at hc
    simp only [decide_eq_true_eq]
    exact fun he => h1 (he ▸ hc)
  have hp2 : ∀ c ∈ ys2.reverse, (decide (c ≠ '/')) = true := by
    intro c hc
    simp only [List.mem_reverse] at hc
    simp only [decide_eq_true_eq]
    exact fun he => h2 (he ▸ hc)
  have hz : (decide (('/' : Char) ≠ '/')) = false := by simp
  have ht1 := takeWhile_all_append ys1.reverse '/' xs1.reverse hp1 hz
  have ht2 := takeWhile_all_append ys2.reverse '/' xs2.reverse hp2 hz
  have hy : ys1.reverse = ys2.reverse := by
    rw [← ht1.1, ← ht2.1, hrev]
  have hx : ('/' :: xs1.reverse) = ('/' :: xs2.reverse) := by
    rw [← ht1.2, ← ht2.2, hrev]
  constructor
  · have := List.cons_injective hx
    exact List.reverse_injective this
  · exact List.reverse_injective hy

theorem pjoin_slashFree {a b : String} (ha : a ≠ "")
    (ha2 : endsWithSlash a = false) (hb : slashFree b = true) :
    pjoin a b = a ++ "/" ++ b := by
  unfold pjoin
  have hnb : isAbsPosix b = false := by
    unfold isAbsPosix
    cases hbl : b.toList with
    | nil => simp
    | cons c t =>
      simp only [List.head?_cons, Option.some.injEq, decide_eq_false_iff_not]
      intro he
      subst he
      unfold slashFree at hb
      rw [hbl] at hb
      simp at hb
  rw [hnb]
  simp only [Bool.false_eq_true, if_false]
  rw [if_neg (by simp [ha, ha2])]

theorem toList_ne_nil {a : String} (ha : a ≠ "") : a.toList ≠ [] := by
  intro h
  apply ha
  cases a with
  | mk d => cases d with
    | nil => rfl
    | cons c t => simp [String.toList] at h

theorem pjoin_name_inj {a1 a2 b1 b2 : String}
    (ha1 : a1 ≠ "") (ha12 : endsWithSlash a1 = false)
    (ha2 : a2 ≠ "") (ha22 : endsWithSlash a2 = false)
    (hb1 : slashFree b1 = true) (hb2 : slashFree b2 = true)
    (h : pjoin a1 b1 = pjoin a2 b2) : a1 = a2 ∧ b1 = b2 := by
  rw [pjoin_slashFree ha1 ha12 hb1, pjoin_slashFree ha2 ha22 hb2] at h
  have hl : a1.toList ++ '/' :: b1.toList = a2.toList ++ '/' :: b2.toList := by
    have := congrArg String.toList h
    simpa [toList_append] using this
  have hns1 : '/' ∉ b1.toList := by
    intro hc
    unfold slashFree at hb1
    simp only [List.all_eq_true, decide_eq_true_eq] at hb1
    exact hb1 '/' hc rfl
  have hns2 : '/' ∉ b2.toList := by
    intro hc
    unfold slashFree at hb2
    simp only [List.all_eq_true, decide_eq_true_eq] at hb2
    exact hb2 '/' hc rfl
  obtain ⟨hx, hy⟩ := splitLastSlash hns1 hns2 hl
  exact ⟨String.ext hx, String.ext hy⟩

theorem mem_files_doMoveFile {fs : FS} {p src dst : String}
    (h1 : p ≠ src) (h2 : p ≠ dst) :
    (p ∈ (doMoveFile fs src dst).files) ↔ p ∈ fs.files := by
  simp [doMoveFile, h2, List.mem_filter, h1]

theorem pathExists_doMoveFile {fs : FS} {p src dst : String}
    (h1 : p ≠ src) (h2 : p ≠ dst) :
    (doMoveFile fs src dst).pathExists p ↔ fs.pathExists p := by
  unfold FS.pathExists
  rw [mem_files_doMoveFile h1 h2]
  rfl

theorem moveLoop_dirs (sp dp : String) :
    ∀ (names : List String) (fs : FS),
      (moveLoop fs sp dp names).1.dirs = fs.dirs := by
  intro names
  induction names with
  | nil => intro fs; rfl
  | cons f rest ih =>
    intro fs
    rw [moveLoop]
    split
    · exact ih fs
    · rw [ih]; rfl

theorem moveLoop_files_preserve (sp dp : String) :
    ∀ (names : List String) (fs : FS) (p : String),
      (∀ f ∈ names, pjoin sp f ≠ p ∧ pjoin dp f ≠ p) →
      ((p ∈ (moveLoop fs sp dp names).1.files) ↔ p ∈ fs.files) := by
  intro names
  induction names with
  | nil => intro fs p _; rfl
  | cons f rest ih =>
    intro fs p hall
    obtain ⟨hf1, hf2⟩ := hall f (by simp)
    have hrest : ∀ g ∈ rest, pjoin sp g ≠ p ∧ pjoin dp g ≠ p :=
      fun g hg => hall g (by simp [hg])
    rw [moveLoop]
    split
    · exact ih fs p hrest
    · rw [ih _ p hrest]
      exact mem_files_doMoveFile (fun h => hf1 h.symm) (fun h => hf2 h.symm)

theorem moveLoop_exists_preserve (sp dp : String) (names : List String)
    (fs : FS) (p : String)
    (hall : ∀ f ∈ names, pjoin sp f ≠ p ∧ pjoin dp f ≠ p) :
    ((moveLoop fs sp dp names).1.pathExists p ↔ fs.pathExists p) := by
  unfold FS.pathExists
  rw [moveLoop_files_preserve sp dp names fs p hall, moveLoop_dirs]

theorem moveLoop_cons_skip (sp dp f : String) (rest : List String) (fs : FS)
    (hex : fs.pathExists (pjoin dp f)) :
    moveLoop fs sp dp (f :: rest) =
      ((moveLoop fs sp dp rest).1, (moveLoop fs sp dp rest).2.1,
        (moveLoop fs sp dp rest).2.2 + 1) := by
  rw [moveLoop, if_pos hex]

theorem moveLoop_cons_move (sp dp f : String) (rest : List String) (fs : FS)
    (hex : ¬ fs.pathExists (pjoin dp f)) :
    moveLoop fs sp dp (f :: rest) =
      ((moveLoop (doMoveFile fs (pjoin sp f) (pjoin dp f)) sp dp rest).1,
        (moveLoop (doMoveFile fs (pjoin sp f) (pjoin dp f)) sp dp
          rest).2.1 + 1,
        (moveLoop (doMoveFile fs (pjoin sp f) (pjoin dp f)) sp dp
          rest).2.2) := by
  rw [moveLoop, if_neg hex]

theorem moveLoop_counts {sp dp : String}
    (hsp : sp ≠ "") (hsp2 : endsWithSlash sp = false)
    (hdp : dp ≠ "") (hdp2 : endsWithSlash dp = false) :
    ∀ (names : List String) (fs : FS), names.Nodup →
      (∀ f ∈ names, slashFree f = true) →
      (moveLoop fs sp dp names).2.1 =
        (names.filter (fun f => ¬ fs.pathExists (pjoin dp f))).length ∧
      (moveLoop fs sp dp names).2.2 =
        (names.filter (fun f => fs.pathExists (pjoin dp f))).length := by
  intro names
  induction names with
  | nil => intro fs _ _; simp [moveLoop]
  | cons f rest ih =>
    intro fs hnd hsep
    have hfnotin : f ∉ rest := (List.nodup_cons.mp hnd).1
    have hndr : rest.Nodup := (List.nodup_cons.mp hnd).2
    have hsf : slashFree f = true := hsep f (by simp)
    have hsepr : ∀ g ∈ rest, slashFree g = true :=
      fun g hg => hsep g (by simp [hg])
    rw [List.filter_cons, List.filter_cons]
    by_cases hex : fs.pathExists (pjoin dp f)
    · rw [moveLoop_cons_skip sp dp f rest fs hex]
      obtain ⟨ihm, ihs⟩ := ih fs hndr hsepr
      rw [if_neg (c := decide (¬ fs.pathExists (pjoin dp f)) = true)
          (by simp [hex]),
        if_pos (c := decide (fs.pathExists (pjoin dp f)) = true)
          (by simp [hex])]
      constructor
      · exact ihm
      · rw [ihs]
        simp
    · rw [moveLoop_cons_move sp dp f rest fs hex]
      obtain ⟨ihm, ihs⟩ :=
        ih (doMoveFile fs (pjoin sp f) (pjoin dp f)) hndr hsepr
      have hcong : ∀ g ∈ rest,
          ((doMoveFile fs (pjoin sp f) (pjoin dp f)).pathExists
            (pjoin dp g) ↔ fs.pathExists (pjoin dp g)) := by
        intro g hg
        have hgne : g ≠ f := fun he => hfnotin (he ▸ hg)
        have hsg : slashFree g = true := hsepr g hg
        refine pathExists_doMoveFile ?_ ?_
        · intro he
          exact hgne (pjoin_name_inj hdp hdp2 hsp hsp2 hsg hsf he).2
        · intro he
          exact hgne (pjoin_name_inj hdp hdp2 hdp hdp2 hsg hsf he).2
      have hfiltm : rest.filter (fun g =>
          ¬ (doMoveFile fs (pjoin sp f) (pjoin dp f)).pathExists
            (pjoin dp g)) =
          rest.filter (fun g => ¬ fs.pathExists (pjoin dp g)) := by
        apply List.filter_congr
        intro g hg
        simp only [decide_eq_decide]
        exact not_congr (hcong g hg)
      have hfilts : rest.filter (fun g =>
          (doMoveFile fs (pjoin sp f) (pjoin dp f)).pathExists
            (pjoin dp g)) =
          rest.filter (fun g => fs.pathExists (pjoin dp g)) := by
        apply List.filter_congr
        intro g hg
        simp only [decide_eq_decide]
        exact hcong g hg
      rw [if_pos (c := decide (¬ fs.pathExists (pjoin dp f)) = true)
          (by simp [hex]),
        if_neg (c := decide (fs.pathExists (pjoin dp f)) = true)
          (by simp [hex])]
      constructor
      · rw [ihm, hfiltm]
        simp
      · rw [ihs, hfilts]

theorem moveLoop_final {sp dp : String}
    (hsp : sp ≠ "") (hsp2 : endsWithSlash sp = false)
    (hdp : dp ≠ "") (hdp2 : endsWithSlash dp = false) :
    ∀ (names : List String) (fs : FS), names.Nodup →
      (∀ f ∈ names, slashFree f = true) →
      (∀ f ∈ names, fs.isFile (pjoin sp f)) →
      ∀ f ∈ names,
        (fs.pathExists (pjoin dp f) →
          pjoin sp f ∈ (moveLoop fs sp dp names).1.files ∧
            (moveLoop fs sp dp names).1.pathExists (pjoin dp f)) ∧
        (¬ fs.pathExists (pjoin dp f) →
          pjoin dp f ∈ (moveLoop fs sp dp names).1.files ∧
            pjoin sp f ∉ (moveLoop fs sp dp names).1.files) := by
  intro names
  induction names with
  | nil => intro fs _ _ _ f hf; exact absurd hf (List.not_mem_nil f)
  | cons g rest ih =>
    intro fs hnd hsep hfiles f hf
    have hgnotin : g ∉ rest := (List.nodup_cons.mp hnd).1
    have hndr : rest.Nodup := (List.nodup_cons.mp hnd).2
    have hsg : slashFree g = true := hsep g (by simp)
    have hsepr : ∀ f' ∈ rest, slashFree f' = true :=
      fun f' hf' => hsep f' (by simp [hf'])
    have hfilesg : pjoin sp g ∈ fs.files := hfiles g (by simp)
    have hfilesr : ∀ f' ∈ rest, fs.isFile (pjoin sp f') :=
      fun f' hf' => hfiles f' (by simp [hf'])
    have hdis : ∀ f' ∈ rest, pjoin sp f' ≠ pjoin sp g ∧
        pjoin dp f' ≠ pjoin sp g ∧ pjoin sp f' ≠ pjoin dp g ∧
        pjoin dp f' ≠ pjoin dp g := by
      intro f' hf'
      have hne : f' ≠ g := fun he => hgnotin (he ▸ hf')
      have hsf' := hsepr f' hf'
      refine ⟨?_, ?_, ?_, ?_⟩ <;> intro he
      · exact hne (pjoin_name_inj hsp hsp2 hsp hsp2 hsf' hsg he).2
      · exact hne (pjoin_name_inj hdp hdp2 hsp hsp2 hsf' hsg he).2
      · exact hne (pjoin_name_inj hsp hsp2 hdp hdp2 hsf' hsg he).2
      · exact hne (pjoin_name_inj hdp hdp2 hdp hdp2 hsf' hsg he).2
    rcases List.mem_cons.mp hf with hfg | hfr
    · subst hfg
      by_cases hex : fs.pathExists (pjoin dp f)
      · rw [moveLoop_cons_skip sp dp f rest fs hex]
        refine ⟨fun _ => ⟨?_, ?_⟩, fun hnex => absurd hex hnex⟩
        · exact (moveLoop_files_preserve sp dp rest fs (pjoin sp f)
            (fun f' hf' => ⟨(hdis f' hf').1, (hdis f' hf').2.1⟩)).mpr hfilesg
        · exact (moveLoop_exists_preserve sp dp rest fs (pjoin dp f)
            (fun f' hf' =>
              ⟨(hdis f' hf').2.2.1, (hdis f' hf').2.2.2⟩)).mpr hex
      · rw [moveLoop_cons_move sp dp f rest fs hex]
        refine ⟨fun hex' => absurd hex' hex, fun _ => ⟨?_, ?_⟩⟩
        · refine (moveLoop_files_preserve sp dp rest _ (pjoin dp f)
            (fun f' hf' =>
              ⟨(hdis f' hf').2.2.1, (hdis f' hf').2.2.2⟩)).mpr ?_
          simp [doMoveFile]
        · have hne2 : pjoin sp f ≠ pjoin dp f :=
            fun he => hex (Or.inl (he ▸ hfilesg))
          refine fun hmem => ?_
          have := (moveLoop_files_preserve sp dp rest _ (pjoin sp f)
            (fun f' hf' => ⟨(hdis f' hf').1, (hdis f' hf').2.1⟩)).mp hmem
          simp [doMoveFile, List.mem_filter, hne2] at this
    · by_cases hex : fs.pathExists (pjoin dp g)
      · rw [moveLoop_cons_skip sp dp g rest fs hex]
        exact ih fs hndr hsepr hfilesr f hfr
      · rw [moveLoop_cons_move sp dp g rest fs hex]
        have hfiles1 : ∀ f' ∈ rest,
            (doMoveFile fs (pjoin sp g) (pjoin dp g)).isFile
              (pjoin sp f') := by
          intro f' hf'
          have hd := hdis f' hf'
          exact (mem_files_doMoveFile hd.1 hd.2.2.1).mpr (hfilesr f' hf')
        have ihres := ih (doMoveFile fs (pjoin sp g) (pjoin dp g))
          hndr hsepr hfiles1 f hfr
        have hd := hdis f hfr
        have hiff : (doMoveFile fs (pjoin sp g) (pjoin dp g)).pathExists
            (pjoin dp f) ↔ fs.pathExists (pjoin dp f) :=
          pathExists_doMoveFile hd.2.1 hd.2.2.2
        exact ⟨fun hex' => ihres.1 (hiff.mpr hex'),
          fun hnex => ihres.2 (fun h => hnex (hiff.mp h))⟩

theorem filter_length_split {α : Type} (p : α → Prop) [DecidablePred p]
    (l : List α) :
    (l.filter (fun x => ¬ p x)).length + (l.filter (fun x => p x)).length =
      l.length := by
  induction l with
  | nil => rfl
  | cons x l ih =>
    rw [List.filter_cons, List.filter_cons]
    by_cases hx : p x
    · rw [if_neg (c := decide (¬ p x) = true) (by simp [hx]),
        if_pos (c := decide (p x) = true) (by simp [hx])]
      simp only [List.length_cons]
      omega
    · rw [if_pos (c := decide (¬ p x) = true) (by simp [hx]),
        if_neg (c := decide (p x) = true) (by simp [hx])]
      simp only [List.length_cons]
      omega

/-- **C7.**  For existing source and destination directories (with
well-formed resolved paths and a duplicate-free, slash-free listing),
`move_all_files` skips exactly the regular-file children whose names are
already present under the destination and moves exactly those whose names
are absent, so moved + skipped equals the number of regular-file children;
an empty file list yields the distinct "No files found" result; the final
message mentions the skip count exactly when it is non-zero; skipped files
stay in place with the destination entry intact, and moved files end up
under the destination and disappear from the source. -/
theorem C7_theorem (srcDir dstDir : String) (w : World)
    (hexS : w.fs.pathExists (w.resolve srcDir))
    (hdirS : w.fs.isDir (w.resolve srcDir))
    (hexD : w.fs.pathExists (w.resolve dstDir))
    (hdirD : w.fs.isDir (w.resolve dstDir))
    (hspne : w.resolve srcDir ≠ "")
    (hsps : endsWithSlash (w.resolve srcDir) = false)
    (hdpne : w.resolve dstDir ≠ "")
    (hdps : endsWithSlash (w.resolve dstDir) = false)
    (hnd : (w.listdir (w.resolve srcDir)).Nodup)
    (hsep : ∀ f ∈ w.listdir (w.resolve srcDir), slashFree f = true) :
    (filesToMove w (w.resolve srcDir) = [] →
      move_all_files srcDir dstDir w =
        ("No files found in the source directory: " ++ w.resolve srcDir,
          w)) ∧
    (filesToMove w (w.resolve srcDir) ≠ [] →
      ((filesToMove w (w.resolve srcDir)).filter (fun f =>
          ¬ w.fs.pathExists (pjoin (w.resolve dstDir) f))).length +
        ((filesToMove w (w.resolve srcDir)).filter (fun f =>
          w.fs.pathExists (pjoin (w.resolve dstDir) f))).length =
        (filesToMove w (w.resolve srcDir)).length ∧
      move_all_files srcDir dstDir w =
        (if 0 < ((filesToMove w (w.resolve srcDir)).filter (fun f =>
            w.fs.pathExists (pjoin (w.resolve dstDir) f))).length then
          "Moved " ++ toString ((filesToMove w
              (w.resolve srcDir)).filter (fun f =>
              ¬ w.fs.pathExists (pjoin (w.resolve dstDir) f))).length ++
            " files from " ++ w.resolve srcDir ++ " to " ++
            w.resolve dstDir ++ "\nSkipped " ++
            toString ((filesToMove w (w.resolve srcDir)).filter (fun f =>
              w.fs.pathExists (pjoin (w.resolve dstDir) f))).length ++
            " files that already exist in the destination."
        else
          "Moved " ++ toString ((filesToMove w
              (w.resolve srcDir)).filter (fun f =>
              ¬ w.fs.pathExists (pjoin (w.resolve dstDir) f))).length ++
            " files from " ++ w.resolve srcDir ++ " to " ++
            w.resolve dstDir,
         { w with fs := (moveLoop w.fs (w.resolve srcDir)
             (w.resolve dstDir) (filesToMove w (w.resolve srcDir))).1 }) ∧
      ∀ f ∈ filesToMove w (w.resolve srcDir),
        (w.fs.pathExists (pjoin (w.resolve dstDir) f) →
          pjoin (w.resolve srcDir) f ∈
              (move_all_files srcDir dstDir w).2.fs.files ∧
            (move_all_files srcDir dstDir w).2.fs.pathExists
              (pjoin (w.resolve dstDir) f)) ∧
        (¬ w.fs.pathExists (pjoin (w.resolve dstDir) f) →
          pjoin (w.resolve dstDir) f ∈
              (move_all_files srcDir dstDir w).2.fs.files ∧
            pjoin (w.resolve srcDir) f ∉
              (move_all_files srcDir dstDir w).2.fs.files)) := by
  have hndn : (filesToMove w (w.resolve srcDir)).Nodup :=
    hnd.filter _
  have hsepn : ∀ f ∈ filesToMove w (w.resolve srcDir),
      slashFree f = true :=
    fun f hf => hsep f (List.mem_of_mem_filter hf)
  have hfilesn : ∀ f ∈ filesToMove w (w.resolve srcDir),
      w.fs.isFile (pjoin (w.resolve srcDir) f) := by
    intro f hf
    have h := (List.mem_filter.mp hf).2
    simpa using h
  constructor
  · intro hempty
    simp [move_all_files, hexS, hdirS, hexD, hdirD, hempty]
  · intro hne
    have hcounts := moveLoop_counts hspne hsps hdpne hdps
      (filesToMove w (w.resolve srcDir)) w.fs hndn hsepn
    have hrun : move_all_files srcDir dstDir w =
        (if 0 < (moveLoop w.fs (w.resolve srcDir) (w.resolve dstDir)
            (filesToMove w (w.resolve srcDir))).2.2 then
          "Moved " ++ toString (moveLoop w.fs (w.resolve srcDir)
              (w.resolve dstDir)
              (filesToMove w (w.resolve srcDir))).2.1 ++
            " files from " ++ w.resolve srcDir ++ " to " ++
            w.resolve dstDir ++ "\nSkipped " ++
            toString (moveLoop w.fs (w.resolve srcDir) (w.resolve dstDir)
              (filesToMove w (w.resolve srcDir))).2.2 ++
            " files that already exist in the destination."
        else
          "Moved " ++ toString (moveLoop w.fs (w.resolve srcDir)
              (w.resolve dstDir)
              (filesToMove w (w.resolve srcDir))).2.1 ++
            " files from " ++ w.resolve srcDir ++ " to " ++
            w.resolve dstDir,
         { w with fs := (moveLoop w.fs (w.resolve srcDir)
             (w.resolve dstDir) (filesToMove w (w.resolve srcDir))).1 }) := by
      simp [move_all_files, hexS, hdirS, hexD, hdirD, hne]
    refine ⟨filter_length_split _ _, ?_, ?_⟩
    · rw [hrun, hcounts.1, hcounts.2]
    · intro f hf
      rw [hrun]
      exact moveLoop_final hspne hsps hdpne hdps
        (filesToMove w (w.resolve srcDir)) w.fs hndn hsepn hfilesn f hf

theorem C7_witness :
    (filesToMove wExample (wExample.resolve "s") ≠ []) ∧
      (((filesToMove wExample (wExample.resolve "s")).filter (fun f =>
          ¬ wExample.fs.pathExists
            (pjoin (wExample.resolve "d") f))).length +
        ((filesToMove wExample (wExample.resolve "s")).filter (fun f =>
          wExample.fs.pathExists
            (pjoin (wExample.resolve "d") f))).length =
        (filesToMove wExample (wExample.resolve "s")).length ∧
      move_all_files "s" "d" wExample =
        (if 0 < ((filesToMove wExample (wExample.resolve "s")).filter
            (fun f => wExample.fs.pathExists
              (pjoin (wExample.resolve "d") f))).length then
          "Moved " ++ toString ((filesToMove wExample
              (wExample.resolve "s")).filter (fun f =>
              ¬ wExample.fs.pathExists
                (pjoin (wExample.resolve "d") f))).length ++
            " files from " ++ wExample.resolve "s" ++ " to " ++
            wExample.resolve "d" ++ "\nSkipped " ++
            toString ((filesToMove wExample
              (wExample.resolve "s")).filter (fun f =>
              wExample.fs.pathExists
                (pjoin (wExample.resolve "d") f))).length ++
            " files that already exist in the destination."
        else
          "Moved " ++ toString ((filesToMove wExample
              (wExample.resolve "s")).filter (fun f =>
              ¬ wExample.fs.pathExists
                (pjoin (wExample.resolve "d") f))).length ++
            " files from " ++ wExample.resolve "s" ++ " to " ++
            wExample.resolve "d",
         { wExample with fs := (moveLoop wExample.fs
             (wExample.resolve "s") (wExample.resolve "d")
             (filesToMove wExample (wExample.resolve "s"))).1 }) ∧
      ∀ f ∈ filesToMove wExample (wExample.resolve "s"),
        (wExample.fs.pathExists (pjoin (wExample.resolve "d") f) →
          pjoin (wExample.resolve "s") f ∈
              (move_all_files "s" "d" wExample).2.fs.files ∧
            (move_all_files "s" "d" wExample).2.fs.pathExists
              (pjoin (wExample.resolve "d") f)) ∧
        (¬ wExample.fs.pathExists (pjoin (wExample.resolve "d") f) →
          pjoin (wExample.resolve "d") f ∈
              (move_all_files "s" "d" wExample).2.fs.files ∧
            pjoin (wExample.resolve "s") f ∉
              (move_all_files "s" "d" wExample).2.fs.files)) :=
  ⟨by decide,
    ( C7_theorem "s" "d" wExample (by decide) (by decide) (by decide)
      (by decide) (by decide) (by decide) (by decide) (by decide)
      (by decide) (by decide)).2 (by decide)⟩

end FileCommander
